import Mathlib

/-!
Verification development for the docuseal-template-manager tag-extraction
pipeline.  The definitions below are a shallow embedding of the TypeScript
sources `src/lib/extract-tags.ts`, `src/lib/docx-processor.ts` (the grid
layout synthesizer duplicated in the PDF processor), `src/lib/infer-types.ts`,
the pattern tables of `src/types/index.ts`, and the extract-coordinates POST
route.  JavaScript strings are modelled as Lean strings / character lists,
JavaScript numbers as rationals, and the nondeterministic uuid generator as an
explicit supply of identifier strings indexed by the order of consumption.
-/

set_option maxRecDepth 100000

namespace DT

/-- Left curly-brace character, written via its code point. -/
def lbrace : Char := Char.ofNat 123

/-- Right curly-brace character, written via its code point. -/
def rbrace : Char := Char.ofNat 125

/-- Character-list version of the prefix test used by JavaScript
`String.prototype.includes`. -/
def hasPrefixChars : List Char → List Char → Bool
  | [], _ => true
  | _ :: _, [] => false
  | p :: ps, c :: cs => p == c && hasPrefixChars ps cs

/-- Whether the first list occurs contiguously inside the second; this is the
semantics of JavaScript `s.includes(sub)`. -/
def hasInfixChars (sub : List Char) : List Char → Bool
  | [] => hasPrefixChars sub []
  | c :: cs => hasPrefixChars sub (c :: cs) || hasInfixChars sub cs

/-- JavaScript `s.includes(sub)`. -/
def strIncludes (s sub : String) : Bool := hasInfixChars sub.toList s.toList

/-- JavaScript `s.toLowerCase()`, character-wise. -/
def jsToLower (s : String) : String := String.mk (s.toList.map Char.toLower)

/-- JavaScript `s.trim()`: drop whitespace from both ends. -/
def jsTrim (l : List Char) : List Char :=
  ((l.dropWhile Char.isWhitespace).reverse.dropWhile Char.isWhitespace).reverse

/-- JavaScript `s.split(sep)` for a one-character separator: every occurrence
of the separator splits, empty pieces are kept, and the empty string yields a
single empty piece. -/
def splitOnChar (sep : Char) : List Char → List (List Char)
  | [] => [[]]
  | c :: cs =>
    if c == sep then [] :: splitOnChar sep cs
    else
      match splitOnChar sep cs with
      | [] => [[c]]
      | p :: ps => (c :: p) :: ps

/-- Join a list of words with a one-character separator (JavaScript
`Array.prototype.join`). -/
def joinSep (sep : Char) : List (List Char) → List Char
  | [] => []
  | [w] => w
  | w :: ws => w ++ sep :: joinSep sep ws

/-- Fuelled scanner for the global regular expression `\{\{([^}]+)\}\}`:
at each position a match needs a double left brace, a nonempty maximal run of
non-right-brace characters, and a double right brace; on success the scan
resumes after the match, on failure it advances one character, exactly as a
JavaScript global-regex `exec` loop does.  The fuel is an upper bound on the
number of positions visited; every recursive call drops at least one
character, so a fuel equal to the list length is always enough. -/
def scanTagsAux : Nat → List Char → List (List Char)
  | 0, _ => []
  | _ + 1, [] => []
  | fuel + 1, c :: cs =>
    match cs with
    | [] => []
    | c2 :: rest =>
      if c == lbrace && c2 == lbrace then
        let content := rest.takeWhile (fun ch => ch != rbrace)
        if content.isEmpty then scanTagsAux fuel cs
        else
          match rest.drop content.length with
          | d1 :: d2 :: rest2 =>
            if d1 == rbrace && d2 == rbrace then content :: scanTagsAux fuel rest2
            else scanTagsAux fuel cs
          | _ => scanTagsAux fuel cs
      else scanTagsAux fuel cs

/-- All (inner, untrimmed) contents of the tag matches of a text, in
left-to-right scan order. -/
def scanTags (l : List Char) : List (List Char) := scanTagsAux l.length l

/-- Pattern table `FIELD_TYPE_INFERENCE` of `src/types/index.ts`, in its
declared entry order (JavaScript object literals iterate string keys in
insertion order). -/
def FIELD_TYPE_INFERENCE : List (String × List String) :=
  [("signature", ["_signature", "signature", "_sign"]),
   ("initials", ["_initials", "initials"]),
   ("date", ["_date", "date"]),
   ("image", ["_image", "image", "photo", "attachment", "logo"]),
   ("checkbox", ["checkbox", "check_", "_agree", "_confirm"]),
   ("phone", ["phone", "telephone", "mobile", "cell"]),
   ("number", ["_amount", "amount", "total_", "price", "cost", "qty"]),
   ("text", []),
   ("file", ["_file", "file", "attachment"]),
   ("select", ["_select", "select", "dropdown"]),
   ("radio", ["_radio", "radio", "option"]),
   ("stamp", ["_stamp", "stamp"])]

/-- Pattern table `ROLE_INFERENCE` of `src/types/index.ts`. -/
def ROLE_INFERENCE : List (String × List String) :=
  [("Service Provider", ["provider_", "provider", "vendor_", "seller_"]),
   ("Client", ["client_", "client", "customer_", "buyer_", "tenant_"]),
   ("First Party", [])]

/-- Shared shape of `inferFieldType` and `inferRole` from
`src/lib/infer-types.ts`: walk the table entries in order, within an entry walk
the pattern strings in order, return the first label one of whose patterns is
contained in the lower-cased name; return the default when nothing matches. -/
def inferFrom (lowerName : String) (default : String) :
    List (String × List String) → String
  | [] => default
  | (label, patterns) :: rest =>
    if patterns.any (fun p => strIncludes lowerName (jsToLower p)) then label
    else inferFrom lowerName default rest

/-- Function `inferFieldType` of `src/lib/infer-types.ts`. -/
def inferFieldType (tagName : String) : String :=
  inferFrom (jsToLower tagName) "text" FIELD_TYPE_INFERENCE

/-- Function `inferRole` of `src/lib/infer-types.ts`. -/
def inferRole (tagName : String) : String :=
  inferFrom (jsToLower tagName) "First Party" ROLE_INFERENCE

/-- Bounding box of a field, with fractional coordinates and a 1-indexed page
number. -/
structure Area where
  x : ℚ
  y : ℚ
  w : ℚ
  h : ℚ
  page : Nat
deriving DecidableEq

/-- The `ExtractedField` record of `src/types/index.ts`.  The `type` is kept
as a raw string because an explicit `type=` attribute is accepted verbatim
without validation against the field-type enumeration. -/
structure Field where
  id : String
  originalTag : String
  name : String
  displayName : String
  type : String
  role : String
  required : Bool
  readonly : Bool
  defaultValue : Option String
  placeholder : Option String
  areas : List Area
deriving DecidableEq

/-- Everything of a field except its (nondeterministically generated) id. -/
structure FieldData where
  originalTag : String
  name : String
  displayName : String
  type : String
  role : String
  required : Bool
  readonly : Bool
  defaultValue : Option String
  placeholder : Option String
  areas : List Area
deriving DecidableEq

/-- Erase the uuid component of a field. -/
def eraseId (f : Field) : FieldData :=
  { originalTag := f.originalTag, name := f.name, displayName := f.displayName,
    type := f.type, role := f.role, required := f.required,
    readonly := f.readonly, defaultValue := f.defaultValue,
    placeholder := f.placeholder, areas := f.areas }

/-- Parse one `;`-separated part of a tag: split on `=`, trim the first two
components, and record the pair only when both are nonempty
(`if (key && value)` in the source); a part with no `=` has an undefined value
and is silently ignored. -/
def parsePart (attrs : List (String × String)) (part : List Char) :
    List (String × String) :=
  match splitOnChar (Char.ofNat 61) part with
  | [] => attrs
  | [_] => attrs
  | k :: v :: _ =>
    let key := String.mk (jsTrim k)
    let val := String.mk (jsTrim v)
    if key != "" && val != "" then attrs ++ [(key, val)] else attrs

/-- Accumulate the attribute assignments of the parts after the tag name. -/
def parseAttrs (parts : List (List Char)) : List (String × String) :=
  parts.foldl parsePart []

/-- Look up an attribute key; the last binding wins, matching the repeated
`attributes[key] = value` assignments on a JavaScript object. -/
def getAttr : List (String × String) → String → Option String
  | [], _ => none
  | kv :: rest, key =>
    match getAttr rest key with
    | some v => some v
    | none => if kv.1 == key then some kv.2 else none

/-- Parts of a tag content: trim, then split on `;`. -/
def partsOf (content : List Char) : List (List Char) :=
  splitOnChar ';' (jsTrim content)

/-- Base name of a tag: the first part, trimmed. -/
def tagNameOf (content : List Char) : String :=
  String.mk (jsTrim ((partsOf content).headD []))

/-- Attribute list of a tag: all parts after the first. -/
def attrsOf (content : List Char) : List (String × String) :=
  parseAttrs ((partsOf content).tail)

/-- Title-case one `_`-separated word: upper-case the first character,
lower-case the rest (JavaScript `charAt(0).toUpperCase() + slice(1).toLowerCase()`). -/
def titleWord : List Char → List Char
  | [] => []
  | c :: rest => c.toUpper :: rest.map Char.toLower

/-- Display name of a tag: split the name on `_`, title-case each word, join
with single spaces. -/
def mkDisplayName (tagName : String) : String :=
  String.mk (joinSep ' ' ((splitOnChar '_' tagName.toList).map titleWord))

/-- Build a field descriptor from a raw tag content, as the body of the
`matches.forEach` of `extractTags` does (areas left empty). -/
def buildField (id : String) (content : List Char) : Field :=
  { id := id,
    originalTag := String.mk (lbrace :: lbrace :: (content ++ [rbrace, rbrace])),
    name := tagNameOf content,
    displayName := mkDisplayName (tagNameOf content),
    type := (getAttr (attrsOf content) "type").getD (inferFieldType (tagNameOf content)),
    role := (getAttr (attrsOf content) "role").getD (inferRole (tagNameOf content)),
    required := (getAttr (attrsOf content) "required") != some "false",
    readonly := (getAttr (attrsOf content) "readonly") == some "true",
    defaultValue := getAttr (attrsOf content) "default_value",
    placeholder := getAttr (attrsOf content) "placeholder",
    areas := [] }

/-- One step of the dedupe loop of `extractTags`: skip a match whose base name
was already recorded, otherwise append the built field and consume one uuid. -/
def extractStep (ids : Nat → String) (st : List Field × Nat) (content : List Char) :
    List Field × Nat :=
  let name := tagNameOf content
  if st.1.any (fun f => f.name == name) then st
  else (st.1 ++ [buildField (ids st.2) content], st.2 + 1)

/-- Function `extractTags` of `src/lib/extract-tags.ts`: scan the text for tag
matches, build one field per first occurrence of a base name, and return the
fields in first-seen order (a JavaScript `Map` iterates in insertion order).
The uuid generator is modelled by the explicit supply `ids`. -/
def extractTags (ids : Nat → String) (text : String) : List Field :=
  ((scanTags text.toList).foldl (extractStep ids) ([], 0)).1

/-- Height and width of a field box by its type, the `if`-chain adjusting
`fieldHeight = 0.04` and `fieldWidth = 0.35` in both grid synthesizers. -/
def dimsFor (type : String) : ℚ × ℚ :=
  if type == "signature" || type == "initials" then (0.08, 0.35)
  else if type == "checkbox" then (0.03, 0.03)
  else if type == "image" then (0.12, 0.35)
  else (0.04, 0.35)

/-- Row-advance step of the grid loop: before a right-column field (odd,
nonzero index) is placed, the running y cursor moves down by that field's
height plus the vertical gap `0.015`. -/
def advanceY (fieldIndex : Nat) (currentY height : ℚ) : ℚ :=
  if !(fieldIndex % 2 == 0) && fieldIndex != 0 then currentY + height + 0.015
  else currentY

/-- Page-overflow step of the grid loop: when the candidate box's bottom would
pass the usable page height `0.95`, start a new page and reset y to the top
margin `0.05`. -/
def overflowStep (currentPage : Nat) (y height : ℚ) : Nat × ℚ :=
  if y + height > 0.95 then (currentPage + 1, 0.05) else (currentPage, y)

/-- State threaded through the grid-positioning `while` loop shared by
`extractTagsFromPDF` and `extractTagsFromDOCX`. -/
structure SynthState where
  fields : List Field
  processed : List String
  currentPage : Nat
  currentY : ℚ
  fieldIndex : Nat
deriving DecidableEq

/-- Initial state of the grid loop: no fields, page 1, y at the 5% top
margin, field index 0. -/
def initSynth : SynthState :=
  { fields := [], processed := [], currentPage := 1, currentY := 0.05, fieldIndex := 0 }

/-- One iteration of the grid-positioning loop, identical in
`src/lib/extract-tags.ts` (PDF) and `src/lib/docx-processor.ts` (DOCX) except
for the final page clamp: the PDF path stores `min(currentPage, pageCount)`
(`clampTo = some pageCount`), the DOCX path stores the raw page
(`clampTo = none`). -/
def synthStep (ids : Nat → String) (clampTo : Option Nat) (st : SynthState)
    (content : List Char) : SynthState :=
  let tagName := tagNameOf content
  if st.processed.contains tagName then st
  else
    let attrs := attrsOf content
    let type := (getAttr attrs "type").getD (inferFieldType tagName)
    let role := (getAttr attrs "role").getD (inferRole tagName)
    let dims := dimsFor type
    let x : ℚ := if st.fieldIndex % 2 == 0 then 0.1 else 0.55
    let y1 := advanceY st.fieldIndex st.currentY dims.1
    let pg := overflowStep st.currentPage y1 dims.1
    let pageOut := match clampTo with
      | some pc => min pg.1 pc
      | none => pg.1
    let field : Field :=
      { id := ids st.fieldIndex,
        originalTag := String.mk (lbrace :: lbrace :: (content ++ [rbrace, rbrace])),
        name := tagName,
        displayName := mkDisplayName tagName,
        type := type,
        role := role,
        required := (getAttr attrs "required") != some "false",
        readonly := (getAttr attrs "readonly") == some "true",
        defaultValue := getAttr attrs "default_value",
        placeholder := getAttr attrs "placeholder",
        areas := [{ x := x, y := pg.2, w := dims.2, h := dims.1, page := pageOut }] }
    { fields := st.fields ++ [field],
      processed := st.processed ++ [tagName],
      currentPage := pg.1,
      currentY := pg.2,
      fieldIndex := st.fieldIndex + 1 }

/-- Run the grid loop over all tag matches of a text. -/
def runSynth (ids : Nat → String) (clampTo : Option Nat) (text : String) :
    SynthState :=
  (scanTags text.toList).foldl (synthStep ids clampTo) initSynth

/-- Field extraction of `extractTagsFromPDF` (`src/lib/extract-tags.ts`),
given the page count that `pdfjs` reports for the document; page numbers are
clamped to it. -/
def extractTagsFromPDF (ids : Nat → String) (text : String) (pageCount : Nat) :
    List Field :=
  (runSynth ids (some pageCount) text).fields

/-- Field extraction of `extractTagsFromDOCX` (`src/lib/docx-processor.ts`);
no page count is known, so no clamping happens. -/
def extractTagsFromDOCX (ids : Nat → String) (text : String) : List Field :=
  (runSynth ids none text).fields

/-- Declared format of an uploaded document. -/
inductive FileKind
  | pdf
  | docx
deriving DecidableEq

/-- Debug context attached to the no-tags failure response of the
extract-coordinates route. -/
structure NoTagsDebug where
  textLength : Nat
  textPreview : String
  hasText : Bool
deriving DecidableEq

/-- Result of the extract-coordinates POST route, after text extraction:
either a success payload with the fields, the (actual or estimated) page
count and the format, or the no-tags failure with its debug context. -/
inductive PipelineResult
  | success (fields : List Field) (pageCount : Nat) (fileType : FileKind)
  | noTagsFound (error : String) (debug : NoTagsDebug)
deriving DecidableEq

/-- User-facing message of the no-tags failure. -/
def noTagsMessage : String :=
  "No \x7b\x7btags\x7d\x7d found in document. Add placeholders like \x7b\x7bsignature\x7d\x7d to your document."

/-- Decision logic of the extract-coordinates POST route once the document's
text has been extracted: run the format-specific tag/grid extraction, compute
the reported page count (`Math.ceil(fields.length / 25) || 1` for DOCX), and
either fail with `NoTagsFound` plus debug context or succeed with the fields. -/
def extractCoordinates (ids : Nat → String) (kind : FileKind) (text : String)
    (pdfPageCount : Nat) : PipelineResult :=
  let fields := match kind with
    | .pdf => extractTagsFromPDF ids text pdfPageCount
    | .docx => extractTagsFromDOCX ids text
  let pageCount := match kind with
    | .pdf => pdfPageCount
    | .docx => if (fields.length + 24) / 25 == 0 then 1 else (fields.length + 24) / 25
  if fields.length == 0 then
    .noTagsFound noTagsMessage
      { textLength := text.toList.length,
        textPreview := String.mk (text.toList.take 200),
        hasText := text.toList.length != 0 }
  else .success fields pageCount kind

/-- Reported page count of a pipeline result, when it succeeded. -/
def reportedPageCount : PipelineResult → Option Nat
  | .success _ pageCount _ => some pageCount
  | .noTagsFound _ _ => none

/-- Fields of a pipeline result, when it succeeded. -/
def resultFields : PipelineResult → Option (List Field)
  | .success fields _ _ => some fields
  | .noTagsFound _ _ => none

/-- Fixed identifier supply used to instantiate the concrete examples. -/
def ids0 : Nat → String := fun _ => ""

/-- Geometric well-formedness of a synthesized box: it sits inside the usable
page area (top margin 0.05, usable height 0.95, right edge at most 0.9) and
its dimensions come from the fixed ranges of the grid algorithm. -/
def geomArea (a : Area) : Prop :=
  0 ≤ a.x ∧ a.x + a.w ≤ 0.9 ∧ 0.05 ≤ a.y ∧ a.y + a.h ≤ 0.95 ∧
  0 < a.w ∧ a.w ≤ 0.35 ∧ 0.03 ≤ a.h ∧ a.h ≤ 0.12

/-- Geometric loop invariant: the y cursor never rises above the top margin
and every already placed box is geometrically well-formed. -/
def geomState (st : SynthState) : Prop :=
  0.05 ≤ st.currentY ∧ ∀ f ∈ st.fields, ∀ a ∈ f.areas, geomArea a

/-- Page well-formedness of a synthesized box: pages are 1-indexed and, on
the clamped (PDF) path, never past the detected page count. -/
def pageArea (clampTo : Option Nat) (a : Area) : Prop :=
  1 ≤ a.page ∧ ∀ pc, clampTo = some pc → a.page ≤ pc

/-- Page loop invariant. -/
def pageState (clampTo : Option Nat) (st : SynthState) : Prop :=
  1 ≤ st.currentPage ∧ ∀ f ∈ st.fields, ∀ a ∈ f.areas, pageArea clampTo a

/-- Correspondence between two synthesis states produced from distinct uuid
supplies: everything agrees except possibly the ids of the placed fields. -/
def relState (s1 s2 : SynthState) : Prop :=
  s1.fields.map eraseId = s2.fields.map eraseId ∧ s1.processed = s2.processed ∧
  s1.currentPage = s2.currentPage ∧ s1.currentY = s2.currentY ∧
  s1.fieldIndex = s2.fieldIndex

/-- DOCX text with thirteen image-typed tags, used to exhibit the unclamped
page numbers of the DOCX path. -/
def imgText : String :=
  "\x7b\x7bimage1\x7d\x7d \x7b\x7bimage2\x7d\x7d \x7b\x7bimage3\x7d\x7d \x7b\x7bimage4\x7d\x7d \x7b\x7bimage5\x7d\x7d \x7b\x7bimage6\x7d\x7d \x7b\x7bimage7\x7d\x7d \x7b\x7bimage8\x7d\x7d \x7b\x7bimage9\x7d\x7d \x7b\x7bimage10\x7d\x7d \x7b\x7bimage11\x7d\x7d \x7b\x7bimage12\x7d\x7d \x7b\x7bimage13\x7d\x7d"

/-- Box synthesized for the single default-size tag of the one-tag document,
used to instantiate the invariant theorems. -/
def areaA : Area := { x := 0.1, y := 0.05, w := 0.35, h := 0.04, page := 1 }

/-- Field synthesized for the one-tag document. -/
def fieldA : Field :=
  { id := "", originalTag := "\x7b\x7ba\x7d\x7d", name := "a", displayName := "A",
    type := "text", role := "First Party", required := true, readonly := false,
    defaultValue := none, placeholder := none, areas := [areaA] }

/-- Identifier-free data built from one tag content. -/
def buildFieldData (content : List Char) : FieldData := eraseId (buildField "" content)

/-- Modelled from the spec (section 4.3 step 4): deduplication keeps the first
occurrence of each base name in scan order and fully discards every later
occurrence, its attribute suffix included.  This clean recursion is compared
with the accumulator-based dedupe of the source's `extractTags`. -/
def firstWins (seen : List String) : List (List Char) → List FieldData
  | [] => []
  | c :: cs =>
    if seen.any (fun n => n == tagNameOf c) then firstWins seen cs
    else buildFieldData c :: firstWins (seen ++ [tagNameOf c]) cs

attribute [local semireducible] Rat.add Rat.sub Rat.mul Rat.inv Rat.ofScientific

theorem foldlInv {α σ : Type} {P : σ → Prop} (step : σ → α → σ)
    (hstep : ∀ s a, P s → P (step s a)) :
    ∀ (l : List α) (s : σ), P s → P (l.foldl step s)
  | [], _, hs => hs
  | a :: l, s, hs => foldlInv step hstep l (step s a) (hstep s a hs)

theorem foldlRel {α σ : Type} {R : σ → σ → Prop} (step1 step2 : σ → α → σ)
    (hstep : ∀ s1 s2 a, R s1 s2 → R (step1 s1 a) (step2 s2 a)) :
    ∀ (l : List α) (s1 s2 : σ), R s1 s2 → R (l.foldl step1 s1) (l.foldl step2 s2)
  | [], _, _, hr => hr
  | a :: l, s1, s2, hr =>
    foldlRel step1 step2 hstep l (step1 s1 a) (step2 s2 a) (hstep s1 s2 a hr)

theorem dimsFor_cases (t : String) :
    dimsFor t = (0.08, 0.35) ∨ dimsFor t = (0.03, 0.03) ∨
    dimsFor t = (0.12, 0.35) ∨ dimsFor t = (0.04, 0.35) := by
  unfold dimsFor
  split
  · exact Or.inl rfl
  · split
    · exact Or.inr (Or.inl rfl)
    · split
      · exact Or.inr (Or.inr (Or.inl rfl))
      · exact Or.inr (Or.inr (Or.inr rfl))

theorem dimsFor_h_lb (t : String) : (0.03 : ℚ) ≤ (dimsFor t).1 := by
  rcases dimsFor_cases t with h | h | h | h <;> rw [h] <;> norm_num

theorem dimsFor_h_ub (t : String) : (dimsFor t).1 ≤ (0.12 : ℚ) := by
  rcases dimsFor_cases t with h | h | h | h <;> rw [h] <;> norm_num

theorem dimsFor_w_cases (t : String) :
    (dimsFor t).2 = (0.03 : ℚ) ∨ (dimsFor t).2 = (0.35 : ℚ) := by
  rcases dimsFor_cases t with h | h | h | h <;> rw [h]
  · exact Or.inr rfl
  · exact Or.inl rfl
  · exact Or.inr rfl
  · exact Or.inr rfl

theorem advanceY_ge (i : Nat) (y h : ℚ) (hh : 0 ≤ h) : y ≤ advanceY i y h := by
  unfold advanceY
  split
  · have : (0 : ℚ) ≤ 0.015 := by norm_num
    linarith
  · exact le_refl y

theorem overflowStep_y_lb (p : Nat) (y h : ℚ) (hy : (0.05 : ℚ) ≤ y) :
    (0.05 : ℚ) ≤ (overflowStep p y h).2 := by
  unfold overflowStep
  split
  · exact le_refl _
  · exact hy

theorem overflowStep_bot (p : Nat) (y h : ℚ) (hub : h ≤ (0.12 : ℚ)) :
    (overflowStep p y h).2 + h ≤ (0.95 : ℚ) := by
  unfold overflowStep
  split
  · show (0.05 : ℚ) + h ≤ 0.95
    have : (0.05 : ℚ) + 0.12 ≤ 0.95 := by norm_num
    linarith
  · rename_i hc
    push_neg at hc
    exact hc

theorem overflowStep_page (p : Nat) (y h : ℚ) : p ≤ (overflowStep p y h).1 := by
  unfold overflowStep
  split
  · exact Nat.le_succ p
  · exact Nat.le_refl p

theorem synthStep_geom (ids : Nat → String) (clampTo : Option Nat)
    (st : SynthState) (content : List Char) (hst : geomState st) :
    geomState (synthStep ids clampTo st content) := by
  obtain ⟨hy, hf⟩ := hst
  simp only [synthStep]
  split
  · exact ⟨hy, hf⟩
  · have hh0 : (0 : ℚ) ≤ (dimsFor ((getAttr (attrsOf content) "type").getD
        (inferFieldType (tagNameOf content)))).1 := by
      have := dimsFor_h_lb ((getAttr (attrsOf content) "type").getD
        (inferFieldType (tagNameOf content)))
      linarith
    refine ⟨?_, ?_⟩
    · exact overflowStep_y_lb _ _ _ (le_trans hy (advanceY_ge _ _ _ hh0))
    · intro f hf' a ha
      rcases List.mem_append.mp hf' with hmem | hmem
      · exact hf f hmem a ha
      · rw [List.mem_singleton.mp hmem] at ha
        rw [List.mem_singleton.mp ha]
        refine ⟨?_, ?_, ?_, ?_, ?_, ?_, ?_, ?_⟩
        · show (0:ℚ) ≤ if st.fieldIndex % 2 == 0 then (0.1 : ℚ) else 0.55
          split <;> norm_num
        · show (if st.fieldIndex % 2 == 0 then (0.1 : ℚ) else 0.55) +
            (dimsFor _).2 ≤ 0.9
          rcases dimsFor_w_cases ((getAttr (attrsOf content) "type").getD
            (inferFieldType (tagNameOf content))) with hw | hw <;>
            rw [hw] <;> split <;> norm_num
        · exact overflowStep_y_lb _ _ _ (le_trans hy (advanceY_ge _ _ _ hh0))
        · exact overflowStep_bot _ _ _ (dimsFor_h_ub _)
        · show (0:ℚ) < (dimsFor _).2
          rcases dimsFor_w_cases ((getAttr (attrsOf content) "type").getD
            (inferFieldType (tagNameOf content))) with hw | hw <;>
            rw [hw] <;> norm_num
        · show (dimsFor _).2 ≤ (0.35 : ℚ)
          rcases dimsFor_w_cases ((getAttr (attrsOf content) "type").getD
            (inferFieldType (tagNameOf content))) with hw | hw
          · rw [hw]; norm_num
          · exact le_of_eq hw
        · exact dimsFor_h_lb _
        · exact dimsFor_h_ub _

theorem synthStep_page (ids : Nat → String) (clampTo : Option Nat)
    (hpc : ∀ pc, clampTo = some pc → 1 ≤ pc)
    (st : SynthState) (content : List Char) (hst : pageState clampTo st) :
    pageState clampTo (synthStep ids clampTo st content) := by
  obtain ⟨hp, hf⟩ := hst
  simp only [synthStep]
  split
  · exact ⟨hp, hf⟩
  · have hp' : 1 ≤ (overflowStep st.currentPage
        (advanceY st.fieldIndex st.currentY (dimsFor ((getAttr (attrsOf content) "type").getD
          (inferFieldType (tagNameOf content)))).1)
        (dimsFor ((getAttr (attrsOf content) "type").getD
          (inferFieldType (tagNameOf content)))).1).1 :=
      le_trans hp (overflowStep_page _ _ _)
    refine ⟨hp', ?_⟩
    intro f hf' a ha
    rcases List.mem_append.mp hf' with hmem | hmem
    · exact hf f hmem a ha
    · rw [List.mem_singleton.mp hmem] at ha
      rw [List.mem_singleton.mp ha]
      cases clampTo with
      | none => exact ⟨hp', fun pc hpc' => by cases hpc'⟩
      | some pc =>
        refine ⟨?_, ?_⟩
        · exact Nat.le_min.mpr ⟨hp', hpc pc rfl⟩
        · intro pc' hpc'
          cases hpc'
          exact Nat.min_le_right _ _

theorem synthStep_rel (ids1 ids2 : Nat → String) (clampTo : Option Nat)
    (s1 s2 : SynthState) (content : List Char) (h : relState s1 s2) :
    relState (synthStep ids1 clampTo s1 content) (synthStep ids2 clampTo s2 content) := by
  obtain ⟨hfl, hpr, hpg, hy, hi⟩ := h
  simp only [synthStep]
  rw [hpr, hpg, hy, hi]
  split
  · exact ⟨hfl, hpr, hpg, hy, hi⟩
  · refine ⟨?_, rfl, rfl, rfl, rfl⟩
    rw [List.map_append, List.map_append, hfl]
    rfl

theorem extractStep_nodup (ids : Nat → String) (st : List Field × Nat) (c : List Char)
    (h : (st.1.map Field.name).Nodup) :
    (((extractStep ids st c).1).map Field.name).Nodup := by
  simp only [extractStep]
  split
  · exact h
  · rename_i hc
    rw [List.map_append]
    refine List.Nodup.append h (List.nodup_singleton _) ?_
    intro x hx hx'
    have hxeq : x = tagNameOf c := List.mem_singleton.mp hx'
    rcases List.mem_map.mp hx with ⟨f, hfmem, hfname⟩
    apply hc
    rw [List.any_eq_true]
    refine ⟨f, hfmem, ?_⟩
    rw [hfname, hxeq]
    exact beq_self_eq_true _

theorem extractTags_names_nodup (ids : Nat → String) (text : String) :
    ((extractTags ids text).map Field.name).Nodup := by
  unfold extractTags
  exact foldlInv (extractStep ids) (fun s a hs => extractStep_nodup ids s a hs)
    (scanTags text.toList) ([], 0) List.nodup_nil

theorem splitOnChar_of_not_mem (sep : Char) :
    ∀ l : List Char, (∀ c ∈ l, (c == sep) = false) → splitOnChar sep l = [l]
  | [], _ => rfl
  | c :: cs, h => by
    have hc : (c == sep) = false := h c (List.mem_cons_self c cs)
    have hrest := splitOnChar_of_not_mem sep cs (fun x hx => h x (List.mem_cons_of_mem c hx))
    simp only [splitOnChar, hc]
    rw [hrest]
    rfl

theorem parsePart_no_equals (attrs : List (String × String)) (part : List Char)
    (h : ∀ c ∈ part, (c == Char.ofNat 61) = false) : parsePart attrs part = attrs := by
  unfold parsePart
  rw [splitOnChar_of_not_mem _ _ h]

theorem buildField_required_iff (id : String) (content : List Char) :
    (buildField id content).required = false ↔
      getAttr (attrsOf content) "required" = some "false" := by
  show ((getAttr (attrsOf content) "required") != some "false") = false ↔ _
  rw [bne_eq_false_iff_eq]

theorem buildField_readonly_iff (id : String) (content : List Char) :
    (buildField id content).readonly = true ↔
      getAttr (attrsOf content) "readonly" = some "true" := by
  show ((getAttr (attrsOf content) "readonly") == some "true") = true ↔ _
  rw [beq_iff_eq]

theorem inferFrom_eq_find (lower d : String) :
    ∀ table : List (String × List String),
      inferFrom lower d table =
        ((table.find? (fun e =>
          e.2.any (fun p => strIncludes lower (jsToLower p)))).map Prod.fst).getD d
  | [] => rfl
  | (label, patterns) :: rest => by
    by_cases h : (patterns.any (fun p => strIncludes lower (jsToLower p))) = true
    · simp [inferFrom, List.find?, h]
    · simp only [Bool.not_eq_true] at h
      simp [inferFrom, List.find?, h, inferFrom_eq_find lower d rest]

theorem runSynth_geom (ids : Nat → String) (clampTo : Option Nat) (text : String) :
    ∀ f ∈ (runSynth ids clampTo text).fields, ∀ a ∈ f.areas, geomArea a := by
  have h := foldlInv (synthStep ids clampTo)
    (fun s a hs => synthStep_geom ids clampTo s a hs)
    (scanTags text.toList) initSynth
    ⟨le_refl _, fun f hf => absurd hf (List.not_mem_nil f)⟩
  exact h.2

theorem runSynth_page (ids : Nat → String) (clampTo : Option Nat)
    (hpc : ∀ pc, clampTo = some pc → 1 ≤ pc) (text : String) :
    ∀ f ∈ (runSynth ids clampTo text).fields, ∀ a ∈ f.areas, pageArea clampTo a := by
  have h := foldlInv (synthStep ids clampTo)
    (fun s a hs => synthStep_page ids clampTo hpc s a hs)
    (scanTags text.toList) initSynth
    ⟨le_refl _, fun f hf => absurd hf (List.not_mem_nil f)⟩
  exact h.2

theorem geomArea_unit (a : Area) (h : geomArea a) :
    0 ≤ a.x ∧ a.x ≤ 1 ∧ 0 ≤ a.y ∧ a.y ≤ 1 ∧ 0 ≤ a.w ∧ a.w ≤ 1 ∧ 0 ≤ a.h ∧ a.h ≤ 1 := by
  obtain ⟨h1, h2, h3, h4, h5, h6, h7, h8⟩ := h
  exact ⟨h1, by linarith, by linarith, by linarith, le_of_lt h5, by linarith,
    by linarith, by linarith⟩

theorem mapAreas_of_eraseId {l1 l2 : List Field}
    (h : l1.map eraseId = l2.map eraseId) :
    l1.map Field.areas = l2.map Field.areas := by
  have h2 := congrArg (List.map FieldData.areas) h
  rw [List.map_map, List.map_map] at h2
  exact h2

theorem any_map_name (l : List Field) (s : String) :
    ((l.map Field.name).any fun n => n == s) = (l.any fun f => f.name == s) := by
  induction l with
  | nil => rfl
  | cons a t ih => simp only [List.map_cons, List.any_cons, ih]

theorem foldl_extractStep_eraseId (ids : Nat → String) :
    ∀ (ms : List (List Char)) (st : List Field × Nat),
      (((ms.foldl (extractStep ids) st).1).map eraseId) =
        st.1.map eraseId ++ firstWins (st.1.map Field.name) ms
  | [], st => by simp [firstWins]
  | c :: cs, st => by
    by_cases h : (st.1.any (fun f => f.name == tagNameOf c)) = true
    · have hseen : ((st.1.map Field.name).any (fun n => n == tagNameOf c)) = true := by
        rw [any_map_name]; exact h
      have hstep : extractStep ids st c = st := by
        simp [extractStep, h]
      have hrhs : firstWins (st.1.map Field.name) (c :: cs) =
          firstWins (st.1.map Field.name) cs := by
        simp [firstWins, hseen]
      rw [List.foldl_cons, hstep, hrhs]
      exact foldl_extractStep_eraseId ids cs st
    · have hb : (st.1.any (fun f => f.name == tagNameOf c)) = false :=
        Bool.eq_false_iff.mpr h
      have hseen : ((st.1.map Field.name).any (fun n => n == tagNameOf c)) = false := by
        rw [any_map_name]; exact hb
      have hstep : extractStep ids st c =
          (st.1 ++ [buildField (ids st.2) c], st.2 + 1) := by
        simp [extractStep, hb]
      have hrhs : firstWins (st.1.map Field.name) (c :: cs) =
          buildFieldData c :: firstWins (st.1.map Field.name ++ [tagNameOf c]) cs := by
        simp [firstWins, hseen]
      rw [List.foldl_cons, hstep, hrhs,
        foldl_extractStep_eraseId ids cs (st.1 ++ [buildField (ids st.2) c], st.2 + 1)]
      simp only [List.map_append]
      have hdata : (List.map eraseId [buildField (ids st.2) c]) = [buildFieldData c] := rfl
      have hname : (List.map Field.name [buildField (ids st.2) c]) = [tagNameOf c] := rfl
      rw [hdata, hname, List.append_assoc, List.singleton_append]

/-- C1: the claim states that the running y cursor advances only after a
right-column placement, so that the two fields of one left/right pair share a
y coordinate.  The code instead advances the cursor while processing the
right-column field, before placing it (despite its own comment "Move to next
row after both columns are filled"), so at two default-size tags the left
field is placed at y = 0.05 and its right-column partner at y = 0.105, on both
the PDF and the DOCX paths. -/
theorem c1_pair_y_differs :
    (extractTagsFromPDF ids0 "\x7b\x7ba\x7d\x7d \x7b\x7bb\x7d\x7d" 1).map
      (fun f => f.areas.map Area.y) = [[0.05], [0.105]] ∧
    (extractTagsFromDOCX ids0 "\x7b\x7ba\x7d\x7d \x7b\x7bb\x7d\x7d").map
      (fun f => f.areas.map Area.y) = [[0.05], [0.105]] ∧
    (0.05 : ℚ) ≠ 0.105 := by decide

/-- C2 (amended): on the PDF path, whenever the detected page count is at
least 1, every synthesized box has a page between 1 and that count and all
coordinates lie in the unit interval; on the DOCX path pages are at least 1
and coordinates lie in the unit interval, but pages are not bounded by the
reported `ceil(fieldCount / 25)` estimate (see the counterexample). -/
theorem c2_area_ranges :
    (∀ ids text pageCount, 1 ≤ pageCount →
      ∀ f ∈ extractTagsFromPDF ids text pageCount, ∀ a ∈ f.areas,
        1 ≤ a.page ∧ a.page ≤ pageCount ∧
        0 ≤ a.x ∧ a.x ≤ 1 ∧ 0 ≤ a.y ∧ a.y ≤ 1 ∧
        0 ≤ a.w ∧ a.w ≤ 1 ∧ 0 ≤ a.h ∧ a.h ≤ 1) ∧
    (∀ ids text, ∀ f ∈ extractTagsFromDOCX ids text, ∀ a ∈ f.areas,
      1 ≤ a.page ∧
      0 ≤ a.x ∧ a.x ≤ 1 ∧ 0 ≤ a.y ∧ a.y ≤ 1 ∧
      0 ≤ a.w ∧ a.w ≤ 1 ∧ 0 ≤ a.h ∧ a.h ≤ 1) := by
  constructor
  · intro ids text pc hpc f hf a ha
    have hg := runSynth_geom ids (some pc) text f hf a ha
    have hp := runSynth_page ids (some pc)
      (fun pc' h => by cases h; exact hpc) text f hf a ha
    obtain ⟨hp1, hp2⟩ := hp
    obtain ⟨u1, u2, u3, u4, u5, u6, u7, u8⟩ := geomArea_unit a hg
    exact ⟨hp1, hp2 pc rfl, u1, u2, u3, u4, u5, u6, u7, u8⟩
  · intro ids text f hf a ha
    have hg := runSynth_geom ids none text f hf a ha
    have hp := runSynth_page ids none (fun pc' h => by cases h) text f hf a ha
    obtain ⟨u1, u2, u3, u4, u5, u6, u7, u8⟩ := geomArea_unit a hg
    exact ⟨hp.1, u1, u2, u3, u4, u5, u6, u7, u8⟩

/-- Witness instantiating the amended C2 invariant at a one-tag PDF run. -/
theorem c2_area_ranges_witness :
    1 ≤ areaA.page ∧ areaA.page ≤ 1 ∧
    0 ≤ areaA.x ∧ areaA.x ≤ 1 ∧ 0 ≤ areaA.y ∧ areaA.y ≤ 1 ∧
    0 ≤ areaA.w ∧ areaA.w ≤ 1 ∧ 0 ≤ areaA.h ∧ areaA.h ≤ 1 :=
  c2_area_ranges.1 ids0 "\x7b\x7ba\x7d\x7d" 1 (le_refl 1) fieldA (by decide) areaA (by decide)

/-- Counterexample to C2 as stated: a DOCX document with thirteen image-typed
tags is reported with the estimated page count ceil(13 / 25) = 1, yet the
unclamped DOCX placement assigns page 2 to its last two fields. -/
theorem c2_docx_pages_exceed_estimate :
    reportedPageCount (extractCoordinates ids0 FileKind.docx imgText 0) = some 1 ∧
    ¬ (∀ f ∈ extractTagsFromDOCX ids0 imgText, ∀ a ∈ f.areas, a.page ≤ 1) := by
  decide

/-- C3: a run whose text contains zero tag matches produces the `NoTagsFound`
failure result carrying the debug context (text length, 200-character
preview), for both formats, and a success result never carries an empty field
sequence; the modelled route returns this failure value rather than throwing. -/
theorem c3_no_tags_failure :
    (∀ (ids : Nat → String) (kind : FileKind) (text : String) (pageCount : Nat),
      scanTags text.toList = [] →
      extractCoordinates ids kind text pageCount =
        PipelineResult.noTagsFound noTagsMessage
          { textLength := text.toList.length,
            textPreview := String.mk (text.toList.take 200),
            hasText := text.toList.length != 0 }) ∧
    (∀ (ids : Nat → String) (kind : FileKind) (text : String) (pageCount : Nat)
      (fields : List Field) (n : Nat) (k : FileKind),
      extractCoordinates ids kind text pageCount = PipelineResult.success fields n k →
      fields ≠ []) := by
  constructor
  · intro ids kind text pc h
    simp only [String.toList] at h
    cases kind <;>
      simp [extractCoordinates, extractTagsFromPDF, extractTagsFromDOCX, runSynth, h,
        initSynth]
  · intro ids kind text pc fields n k h
    simp only [extractCoordinates] at h
    split at h
    · exact absurd h (by simp)
    · rename_i hc
      cases h
      intro h0
      rw [h0] at hc
      simp at hc

/-- Witness for C3 at a concrete tag-free text. -/
theorem c3_no_tags_failure_witness :
    extractCoordinates ids0 FileKind.pdf "hello" 3 =
      PipelineResult.noTagsFound noTagsMessage
        { textLength := "hello".toList.length,
          textPreview := String.mk ("hello".toList.take 200),
          hasText := "hello".toList.length != 0 } :=
  c3_no_tags_failure.1 ids0 FileKind.pdf "hello" 3 (by decide)

/-- C4: type inference lower-cases the tag name and returns the label of the
first table entry (in declared order) one of whose patterns occurs in the
name, with `text` as the fallback; role inference has the same shape; and the
concrete instances of the claim hold: `provider_signature` infers type
`signature` and role `Service Provider`.  Totality is by construction: both
functions are plain recursions. -/
theorem c4_inference_first_match :
    (∀ tagName : String,
      inferFieldType tagName =
        ((FIELD_TYPE_INFERENCE.find? (fun e =>
            e.2.any (fun p => strIncludes (jsToLower tagName) (jsToLower p)))).map
          Prod.fst).getD "text") ∧
    (∀ tagName : String,
      inferRole tagName =
        ((ROLE_INFERENCE.find? (fun e =>
            e.2.any (fun p => strIncludes (jsToLower tagName) (jsToLower p)))).map
          Prod.fst).getD "First Party") ∧
    inferFieldType "provider_signature" = "signature" ∧
    inferRole "provider_signature" = "Service Provider" :=
  ⟨fun t => inferFrom_eq_find (jsToLower t) "text" FIELD_TYPE_INFERENCE,
   fun t => inferFrom_eq_find (jsToLower t) "First Party" ROLE_INFERENCE,
   by decide, by decide⟩

/-- C5: extraction deduplicates by base name with the first occurrence in
scan order winning: the extracted names are duplicate-free, the whole result
(up to the generated ids) equals the clean first-occurrence-wins recursion
over the scanned matches, and the duplicate example keeps a single field
named `x` whose `type=date` suffix on the second occurrence was discarded. -/
theorem c5_first_occurrence_wins :
    (∀ ids text, ((extractTags ids text).map Field.name).Nodup) ∧
    (∀ ids text, (extractTags ids text).map eraseId = firstWins [] (scanTags text.toList)) ∧
    (∀ ids : Nat → String, extractTags ids "\x7b\x7bx\x7d\x7d \x7b\x7bx;type=date\x7d\x7d" =
      [{ id := ids 0, originalTag := "\x7b\x7bx\x7d\x7d", name := "x", displayName := "X",
         type := "text", role := "First Party", required := true, readonly := false,
         defaultValue := none, placeholder := none, areas := [] }]) := by
  refine ⟨fun ids text => extractTags_names_nodup ids text, fun ids text => ?_, fun _ => rfl⟩
  have h := foldl_extractStep_eraseId ids (scanTags text.toList) ([], 0)
  simpa using h

/-- C6: the explicit-attribute example parses to type `number`, required
false and default value `"100"`; `required` is false exactly when the (last,
trimmed) `required` attribute value is the string `false` and `readonly` is
true exactly when the value is `true`; an unrecognized key and a part without
an equals sign are both ignored without error. -/
theorem c6_attribute_semantics :
    (∀ ids : Nat → String,
      extractTags ids "\x7b\x7bamt;type=number;required=false;default_value=100\x7d\x7d" =
        [{ id := ids 0,
           originalTag := "\x7b\x7bamt;type=number;required=false;default_value=100\x7d\x7d",
           name := "amt", displayName := "Amt", type := "number", role := "First Party",
           required := false, readonly := false, defaultValue := some "100",
           placeholder := none, areas := [] }]) ∧
    (∀ id content, ((buildField id content).required = false ↔
        getAttr (attrsOf content) "required" = some "false") ∧
      ((buildField id content).readonly = true ↔
        getAttr (attrsOf content) "readonly" = some "true")) ∧
    (∀ ids : Nat → String,
      (extractTags ids "\x7b\x7bamt;foo=bar;loose\x7d\x7d").map (fun f =>
        (f.name, f.type, f.role, f.required, f.readonly, f.defaultValue, f.placeholder)) =
      [("amt", "text", "First Party", true, false, none, none)]) ∧
    (∀ attrs part, (∀ c ∈ part, (c == Char.ofNat 61) = false) →
      parsePart attrs part = attrs) :=
  ⟨fun _ => rfl,
   fun id content => ⟨buildField_required_iff id content, buildField_readonly_iff id content⟩,
   fun _ => rfl,
   fun attrs part h => parsePart_no_equals attrs part h⟩

/-- Witness for C6 at a concrete equals-free part. -/
theorem c6_attribute_semantics_witness : parsePart [] ['a', 'b'] = [] :=
  c6_attribute_semantics.2.2.2 [] ['a', 'b'] (by decide)

/-- C7: the three-tag sentence yields exactly three field descriptors in
left-to-right order with the claimed names, types and roles. -/
theorem c7_three_fields_example :
    ∀ ids : Nat → String,
      (extractTags ids
        "Hello \x7b\x7bclient_name\x7d\x7d please sign \x7b\x7bclient_signature\x7d\x7d by \x7b\x7bcontract_date\x7d\x7d").map
        (fun f => (f.name, f.type, f.role)) =
      [("client_name", "text", "Client"), ("client_signature", "signature", "Client"),
       ("contract_date", "date", "First Party")] := fun _ => rfl

/-- C8: layout synthesis is deterministic: the synthesized output depends
only on the scanned text (hence on the ordered field sequence and its types),
not on the nondeterministic uuid supply, so two runs agree on every field up
to ids and in particular produce identical `areas`; idempotence is immediate
because the synthesis is a pure function of its input. -/
theorem c8_synthesis_deterministic :
    (∀ ids1 ids2 text pageCount,
      (extractTagsFromPDF ids1 text pageCount).map eraseId =
        (extractTagsFromPDF ids2 text pageCount).map eraseId ∧
      (extractTagsFromPDF ids1 text pageCount).map Field.areas =
        (extractTagsFromPDF ids2 text pageCount).map Field.areas) ∧
    (∀ ids1 ids2 text,
      (extractTagsFromDOCX ids1 text).map eraseId =
        (extractTagsFromDOCX ids2 text).map eraseId ∧
      (extractTagsFromDOCX ids1 text).map Field.areas =
        (extractTagsFromDOCX ids2 text).map Field.areas) := by
  constructor
  · intro ids1 ids2 text pc
    have h := (foldlRel (synthStep ids1 (some pc)) (synthStep ids2 (some pc))
      (fun s1 s2 a hr => synthStep_rel ids1 ids2 (some pc) s1 s2 a hr)
      (scanTags text.toList) initSynth initSynth ⟨rfl, rfl, rfl, rfl, rfl⟩).1
    exact ⟨h, mapAreas_of_eraseId h⟩
  · intro ids1 ids2 text
    have h := (foldlRel (synthStep ids1 none) (synthStep ids2 none)
      (fun s1 s2 a hr => synthStep_rel ids1 ids2 none s1 s2 a hr)
      (scanTags text.toList) initSynth initSynth ⟨rfl, rfl, rfl, rfl, rfl⟩).1
    exact ⟨h, mapAreas_of_eraseId h⟩

/-- C9: every synthesized box fits inside the usable page area on both paths:
y is at least the 0.05 top margin, the bottom y + h stays within 0.95 (the
overflow guard resets y before placing and the tallest height is 0.12), and
the right edge x + w stays within 0.9. -/
theorem c9_boxes_fit_usable_area :
    (∀ ids text pageCount, ∀ f ∈ extractTagsFromPDF ids text pageCount,
      ∀ a ∈ f.areas,
        (0.05 : ℚ) ≤ a.y ∧ a.y + a.h ≤ 0.95 ∧ a.x + a.w ≤ 0.9 ∧ a.h ≤ 0.12) ∧
    (∀ ids text, ∀ f ∈ extractTagsFromDOCX ids text,
      ∀ a ∈ f.areas,
        (0.05 : ℚ) ≤ a.y ∧ a.y + a.h ≤ 0.95 ∧ a.x + a.w ≤ 0.9 ∧ a.h ≤ 0.12) := by
  constructor
  · intro ids text pc f hf a ha
    obtain ⟨h1, h2, h3, h4, h5, h6, h7, h8⟩ := runSynth_geom ids (some pc) text f hf a ha
    exact ⟨h3, h4, h2, h8⟩
  · intro ids text f hf a ha
    obtain ⟨h1, h2, h3, h4, h5, h6, h7, h8⟩ := runSynth_geom ids none text f hf a ha
    exact ⟨h3, h4, h2, h8⟩

/-- Witness for C9 at a one-tag PDF run. -/
theorem c9_boxes_fit_usable_area_witness :
    (0.05 : ℚ) ≤ areaA.y ∧ areaA.y + areaA.h ≤ 0.95 ∧
    areaA.x + areaA.w ≤ 0.9 ∧ areaA.h ≤ 0.12 :=
  c9_boxes_fit_usable_area.1 ids0 "\x7b\x7ba\x7d\x7d" 1 fieldA (by decide) areaA (by decide)

/-- C10: a tag whose content trims to the empty string or starts with a
semicolon still produces a field descriptor with the empty name (type and
role falling back to `text` and `First Party` unless overridden, here the
`type=date` override applies), and any extraction run holds at most one field
with the empty name. -/
theorem c10_empty_name_tags :
    (∀ ids : Nat → String, extractTags ids "\x7b\x7b   \x7d\x7d" =
      [{ id := ids 0, originalTag := "\x7b\x7b   \x7d\x7d", name := "", displayName := "",
         type := "text", role := "First Party", required := true, readonly := false,
         defaultValue := none, placeholder := none, areas := [] }]) ∧
    (∀ ids : Nat → String, extractTags ids "\x7b\x7b;type=date\x7d\x7d" =
      [{ id := ids 0, originalTag := "\x7b\x7b;type=date\x7d\x7d", name := "",
         displayName := "", type := "date", role := "First Party", required := true,
         readonly := false, defaultValue := none, placeholder := none, areas := [] }]) ∧
    (∀ ids text, ((extractTags ids text).filter (fun f => f.name == "")).length ≤ 1) := by
  refine ⟨fun _ => rfl, fun _ => rfl, ?_⟩
  intro ids text
  have hnd := extractTags_names_nodup ids text
  have h3 : ((extractTags ids text).filter (fun f => f.name == "")).length =
      List.count "" ((extractTags ids text).map Field.name) := by
    show _ = List.countP (fun x => x == "") ((extractTags ids text).map Field.name)
    rw [List.countP_map, List.countP_eq_length_filter]
    rfl
  rw [h3]
  exact List.nodup_iff_count_le_one.mp hnd ""

end DT
